import Mathlib

/-!
Verification of the PLONKish-arithmetization examples of this repository.

The repository's own files are circuit clients: they declare gates, lookup
arguments, equality (copy) constraints and instance bindings, fill a witness
grid region by region, and then ask a satisfiability checker (`MockProver`)
to validate the grid.  The checker itself, the expression tree and the
region-assignment store live in the engine the examples build on and are not
part of the repository's files, so those three pieces are modelled from the
specification; every gate expression, witness builder, table loader and
helper function below is translated from the repository's source files.

Fields are embedded as `ZMod p` for the concrete moduli the examples use
(the bn254 scalar field for the halo2 examples, the 128-bit STARK field for
the winterfell example), with machine-integer truncations written as
explicit `% 2 ^ w`.
-/

set_option maxRecDepth 4000000

/-- Modulus of the bn254 (BN256) scalar field `Fr`, the field every halo2
example in the repository instantiates its circuits at. -/
def bn254r : ℕ :=
  21888242871839275222246405745257275088548364400416034343698204186575808495617

/-- The halo2 examples' field: integers modulo the bn254 scalar modulus. -/
abbrev Fp : Type := ZMod bn254r

instance : NeZero bn254r := ⟨by decide⟩

/-- Modelled from the spec: column identities.  §3 gives a column as a kind
(Fixed, Advice, Instance) together with a stable integer index. -/
inductive Col : Type where
  | advice (i : ℕ)
  | fixedc (i : ℕ)
  | instc (i : ℕ)
deriving DecidableEq

/-- Modelled from the spec: a cell is a column together with an absolute row. -/
abbrev Cell : Type := Col × ℕ

/-- Modelled from the spec: the expression tree of §3 — constants, column
queries at signed rotations, selector queries, negation, sum and product. -/
inductive Expr (F : Type) : Type where
  | const (c : F)
  | query (c : Col) (rot : ℤ)
  | selector (s : ℕ)
  | neg (e : Expr F)
  | add (a b : Expr F)
  | mul (a b : Expr F)

/-- Modelled from the spec: the witness grid of §3/§4.5 — per-column values
by (column, row), the set of enabled selector rows, and the usable height
`n`.  Unassigned cells are represented by the default value `0`; every
checked constraint below only ever reads assigned cells. -/
structure Grid (F : Type) : Type where
  n : ℕ
  advice : ℕ → ℕ → F
  fixedv : ℕ → ℕ → F
  instv : ℕ → ℕ → F
  sel : ℕ → ℕ → Bool

/-- Value of a cell in the grid. -/
def cellVal {F : Type} (g : Grid F) : Cell → F
  | (Col.advice i, r) => g.advice i r
  | (Col.fixedc i, r) => g.fixedv i r
  | (Col.instc i, r) => g.instv i r

/-- Modelled from the spec: expression evaluation of §4.2 at an absolute
row; a query reads the cell at `row + rotation`, a selector query reads the
enabled-set as 1 or 0, and the ring operations are the field's own. -/
def eval {F : Type} [CommRing F] (g : Grid F) (r : ℕ) : Expr F → F
  | Expr.const c => c
  | Expr.query c rot => cellVal g (c, ((r : ℤ) + rot).toNat)
  | Expr.selector s => if g.sel s r then 1 else 0
  | Expr.neg e => -(eval g r e)
  | Expr.add a b => eval g r a + eval g r b
  | Expr.mul a b => eval g r a * eval g r b

/-- Modelled from the spec: a gate is a named ordered sequence of
expressions required to vanish (§3). -/
structure Gate (F : Type) : Type where
  name : String
  polys : List (Expr F)

/-- Modelled from the spec: a lookup argument is a named selector-gated
sequence of input expressions checked for membership among the rows of a
loaded table (§3); the table is carried as its list of loaded row tuples. -/
structure LookupArg (F : Type) : Type where
  name : String
  sel : ℕ
  inputs : List (Expr F)
  table : List (List F)

/-- Modelled from the spec: a constraint system aggregates gates, lookup
arguments, equality (copy) constraints and instance bindings (§3, §4.3). -/
structure ConstraintSys (F : Type) : Type where
  gates : List (Gate F)
  lookups : List (LookupArg F)
  copies : List (Cell × Cell)
  instBindings : List (Cell × ℕ)

/-- Modelled from the spec: the checker's structured failure records
(§4.6): gate failures carry gate name, row and constraint index; lookup
failures carry lookup name and row; copy failures carry the cell pair;
instance failures carry the bound cell and instance index. -/
inductive Failure : Type where
  | gate (name : String) (row : ℕ) (idx : ℕ)
  | lookup (name : String) (row : ℕ)
  | copyV (a b : Cell)
  | instV (c : Cell) (idx : ℕ)
deriving DecidableEq

/-- Modelled from the spec: step 1 of the checker (§4.6) for one gate —
every polynomial of the gate is evaluated at every row of the grid, and a
failure is recorded wherever the value is not the additive identity.  The
repository's gates all multiply their polynomials by the queried selector,
so rows with the selector off contribute zero. -/
def gateFailures {F : Type} [CommRing F] [DecidableEq F] (g : Grid F) (G : Gate F) :
    List Failure :=
  (List.range g.n).flatMap (fun r =>
    (List.range G.polys.length).filterMap (fun i =>
      if eval g r (G.polys.getD i (Expr.const 0)) ≠ 0 then some (Failure.gate G.name r i)
      else none))

/-- Modelled from the spec: step 2 of the checker (§4.6) for one lookup —
at every row where the lookup's selector is active, the tuple of evaluated
inputs must equal some loaded row's full tuple of table values (set
containment, full-tuple equality). -/
def lookupFailures {F : Type} [CommRing F] [DecidableEq F] (g : Grid F) (L : LookupArg F) :
    List Failure :=
  (List.range g.n).filterMap (fun r =>
    if g.sel L.sel r then
      if L.inputs.map (eval g r) ∈ L.table then none else some (Failure.lookup L.name r)
    else none)

/-- Modelled from the spec: steps 3 and 4 of the checker (§4.6) — every
recorded equality pair must relate cells of equal value (all members of a
closure class are equal exactly when every recorded pair is), and every
instance-bound cell must equal the corresponding public input. -/
def copyFailures {F : Type} [DecidableEq F] (g : Grid F) (copies : List (Cell × Cell)) :
    List Failure :=
  (copies.filter (fun p => cellVal g p.1 ≠ cellVal g p.2)).map (fun p => Failure.copyV p.1 p.2)

/-- Modelled from the spec: instance check of §4.6 step 4. -/
def instFailures {F : Type} [Zero F] [DecidableEq F] (g : Grid F)
    (bindings : List (Cell × ℕ)) (instVals : List F) : List Failure :=
  (bindings.filter (fun b => cellVal g b.1 ≠ instVals.getD b.2 0)).map
    (fun b => Failure.instV b.1 b.2)

/-- Modelled from the spec: the aggregated checker result of §4.6 step 5 —
gate failures, then lookup failures, then equality failures, then instance
failures; the checker returns `Satisfied` exactly when this list is empty. -/
def verify {F : Type} [CommRing F] [DecidableEq F] (cs : ConstraintSys F) (g : Grid F)
    (instVals : List F) : List Failure :=
  cs.gates.flatMap (gateFailures g) ++
  cs.lookups.flatMap (lookupFailures g) ++
  copyFailures g cs.copies ++
  instFailures g cs.instBindings instVals

/-! ## Scenario A: the selection gate (halo2-tutorial1/src/test1.rs)

`FunctionChip::configure` allocates a selector, four advice columns
(`cond`, `thenval`, `elseval`, `output`) and an instance column, and
creates the single gate `s * (cond * thenval + (1 - cond) * elseval -
output)`.  We index the advice columns in allocation order: cond = 0,
thenval = 1, elseval = 2, output = 3; the selector is 0. -/

/-- The selection gate of `FunctionChip::configure`:
`s * ( cond * thenval + (one - cond) * elseval - output )`. -/
def functionGate : Gate Fp :=
  { name := "f(a, b, c) = if a == b \x7bc\x7d else \x7ba - b\x7d"
    polys := [Expr.mul (Expr.selector 0)
      (Expr.add
        (Expr.add
          (Expr.mul (Expr.query (Col.advice 0) 0) (Expr.query (Col.advice 1) 0))
          (Expr.mul (Expr.add (Expr.const 1) (Expr.neg (Expr.query (Col.advice 0) 0)))
            (Expr.query (Col.advice 2) 0)))
        (Expr.neg (Expr.query (Col.advice 3) 0)))] }

/-- The output value computed by `FunctionChip::assign`:
`if cond == one \x7bthenval\x7d else \x7belseval\x7d`. -/
def function_output (cond thenval elseval : Fp) : Fp :=
  if cond = 1 then thenval else elseval

/-- The constraint system of `FunctionCircuit`: the selection gate plus the
instance binding recorded by `expose_public` (the output cell at row 0 is
constrained to instance row 0). -/
def functionCs : ConstraintSys Fp :=
  { gates := [functionGate]
    lookups := []
    copies := []
    instBindings := [((Col.advice 3, 0), 0)] }

/-- The witness grid of `FunctionChip::assign` with an explicit output cell
value: row 0 holds `cond`, `thenval`, `elseval` and `out` in the four
advice columns with the selector enabled; `main` runs at `k = 4`, so the
grid has `2 ^ 4 = 16` rows. -/
def functionGrid (cond thenval elseval out : Fp) (instVals : List Fp) : Grid Fp :=
  { n := 16
    advice := fun c r => ([[cond], [thenval], [elseval], [out]].getD c []).getD r 0
    fixedv := fun _ _ => 0
    instv := fun _ r => instVals.getD r 0
    sel := fun s r => decide (s = 0 ∧ r = 0) }

/-! ## Modelled from the spec: the region assignment store (§4.4, §7)

The spec's assignment discipline: a cell may be written once; re-writing
the same value is permitted and a no-op; writing a different value fails
with `Shadowing`.  `assign_simple` (table-expression
src/hash_check/example1.rs) writes the same value three times to the same
cell at offset 0. -/

/-- Modelled from the spec: assignment errors; only `Shadowing`
(conflicting re-assignment) is relevant here. -/
inductive AssignErr : Type where
  | Shadowing
deriving DecidableEq

/-- Look a cell up in the sparse witness store. -/
def lookupCell {F : Type} : List (Cell × F) → Cell → Option F
  | [], _ => none
  | (c2, v) :: rest, c => if c2 = c then some v else lookupCell rest c

/-- Modelled from the spec: writing one cell.  A fresh cell is recorded;
re-assigning the held value is a no-op; a conflicting value fails with
`Shadowing`. -/
def assignCell {F : Type} [DecidableEq F] (st : List (Cell × F)) (c : Cell) (v : F) :
    Except AssignErr (List (Cell × F)) :=
  match lookupCell st c with
  | some w => if w = v then Except.ok st else Except.error AssignErr.Shadowing
  | none => Except.ok ((c, v) :: st)

/-- `HashCheckConfig::assign_simple`: three `assign_advice` calls writing
the same `value` to the `value` column at offset 0. -/
def assign_simple {F : Type} [DecidableEq F] (value : F) :
    Except AssignErr (List (Cell × F)) := do
  let s1 ← assignCell [] (Col.advice 0, 0) value
  let s2 ← assignCell s1 (Col.advice 0, 0) value
  assignCell s2 (Col.advice 0, 0) value

/-! ## Claim theorems (first group) -/

/-- Claim C1: for the circuit with the single gate
`s * (cond * thenv + (1 - cond) * elsev - out)`, witnessing
cond = 1, thenv = 2, elsev = 3, out = 2 at the gate's row with the selector
enabled makes the checker return `Satisfied` (no failures); witnessing
out = 3 instead at that row yields exactly one gate violation at that row. -/
theorem selection_gate_scenario :
    verify functionCs (functionGrid 1 2 3 (function_output 1 2 3) [2]) [2] = [] ∧
    verify functionCs (functionGrid 1 2 3 3 [3]) [3] =
      [Failure.gate functionGate.name 0 0] := by
  constructor
  · decide
  · decide

/-- Claim C6: for a gate whose expressions are all multiplied by the
queried selector, if the selector evaluates to zero at a row then every
expression of the gate evaluates to zero there, and hence no failure
attributable to that gate is reported at that row, for any cell contents. -/
theorem selector_off_neutral {F : Type} [CommRing F] [DecidableEq F]
    (g : Grid F) (G : Gate F) (s r : ℕ)
    (hgated : ∀ p ∈ G.polys, ∃ e, p = Expr.mul (Expr.selector s) e)
    (hoff : g.sel s r = false) :
    (∀ p ∈ G.polys, eval g r p = 0) ∧
    ∀ i, Failure.gate G.name r i ∉ gateFailures g G := by
  have hzero : ∀ p ∈ G.polys, eval g r p = 0 := by
    intro p hp
    obtain ⟨e, he⟩ := hgated p hp
    subst he
    simp [eval, hoff]
  refine ⟨hzero, fun i hmem => ?_⟩
  rw [gateFailures, List.mem_flatMap] at hmem
  obtain ⟨r2, _, hmem2⟩ := hmem
  rw [List.mem_filterMap] at hmem2
  obtain ⟨i2, hi2, heq⟩ := hmem2
  by_cases hnz : eval g r2 (G.polys.getD i2 (Expr.const 0)) ≠ 0
  · rw [if_pos hnz] at heq
    have hr : r2 = r := by
      have := Option.some.inj heq
      exact (Failure.gate.injEq _ _ _ _ _ _).mp this |>.2.1
    have hlt : i2 < G.polys.length := List.mem_range.mp hi2
    apply hnz
    rw [hr, List.getD_eq_getElem G.polys (Expr.const 0) hlt]
    exact hzero _ (List.getElem_mem hlt)
  · rw [if_neg hnz] at heq
    exact Option.noConfusion heq

/-- Witness for C6 at a concrete gate and grid: the selection gate with the
selector off at row 1. -/
theorem selector_off_neutral_witness :
    (∀ p ∈ functionGate.polys, eval (functionGrid 1 2 3 3 [3]) 1 p = 0) ∧
    ∀ i, Failure.gate functionGate.name 1 i ∉
      gateFailures (functionGrid 1 2 3 3 [3]) functionGate := by
  apply selector_off_neutral (s := 0)
  · intro p hp
    simp only [functionGate, List.mem_singleton] at hp
    exact ⟨_, hp⟩
  · decide

/-- Claim C7: assigning the same (column, row, value) repeatedly — as
`assign_simple` does, writing the same value three times to the same cell
at offset 0 — succeeds and is a no-op leaving the store as after the first
write; assigning a different value to an already-assigned cell fails with
`Shadowing`. -/
theorem assign_idempotence_shadowing {F : Type} [DecidableEq F] (v w : F) (hvw : w ≠ v) :
    assign_simple v = Except.ok [((Col.advice 0, 0), v)] ∧
    assignCell [((Col.advice 0, 0), v)] (Col.advice 0, 0) w =
      Except.error AssignErr.Shadowing := by
  constructor
  · simp [assign_simple, assignCell, lookupCell, Bind.bind, Except.bind]
  · simp [assignCell, lookupCell, if_neg (Ne.symm hvw)]

/-- Witness for C7 at concrete values 0 and 1 in the bn254 scalar field. -/
theorem assign_idempotence_shadowing_witness :
    ((1 : Fp) ≠ 0) ∧
    (assign_simple (0 : Fp) = Except.ok [((Col.advice 0, 0), (0 : Fp))] ∧
      assignCell [((Col.advice 0, 0), (0 : Fp))] (Col.advice 0, 0) 1 =
        Except.error AssignErr.Shadowing) :=
  ⟨by decide, assign_idempotence_shadowing 0 1 (by decide)⟩

/-! ## Scenario B: the copy-chained recurrence (halo2-tutorial1/src/example4.rs)

`FabonacciChip::configure` allocates advice columns a = 0, b = 1, c = 2, an
instance column and a selector, and creates the gate
`selector * ((a + b) - c)`.  `synthesize` assigns a first region (selector
on, `a`/`b` loaded from instance rows 0 and 1, `c = a + b`) and then one
region per loop step in `3..k`, each copying the previous region's last two
values into its `a` and `b` cells via `copy_advice` and computing
`c = a + b`; the final `c` is exposed at instance row 2.  The claim's
scenario is `k = 5`: three regions, terms 1, 1, 2, 3, 5. -/

/-- The gate of `FabonacciChip::configure`: `selector_exp * ((a_exp + b_exp) - c_exp)`. -/
def additionGate : Gate Fp :=
  { name := "addition gate"
    polys := [Expr.mul (Expr.selector 0)
      (Expr.add
        (Expr.add (Expr.query (Col.advice 0) 0) (Expr.query (Col.advice 1) 0))
        (Expr.neg (Expr.query (Col.advice 2) 0)))] }

/-- Rows produced by the `assign_row` regions of `MyCircuit::synthesize`
(example4): each region holds `(prev_b, prev_c, prev_b + prev_c)` and the
pair advances to `(prev_c, c)`. -/
def ex4_rows (prevB prevC : Fp) : ℕ → List (Fp × Fp × Fp)
  | 0 => []
  | m + 1 =>
    let c := prevB + prevC
    (prevB, prevC, c) :: ex4_rows prevC c m

/-- Full witness rows of `MyCircuit::synthesize` (example4): the
`assign_first_row` region `(in0, in1, in0 + in1)` followed by the
`assign_row` regions for the loop over `3..k`. -/
def ex4_witness (in0 in1 : Fp) (k : ℕ) : List (Fp × Fp × Fp) :=
  (in0, in1, in0 + in1) :: ex4_rows in1 (in0 + in1) (k - 3)

/-- Copy constraints recorded by the `copy_advice` calls of `assign_row`:
at each region row `r`, the previous `b` cell is copied into `(a, r)` and
the previous `c` cell into `(b, r)`; the pair of source cells then advances
to `(previous c cell, (c, r))`. -/
def ex4_copies (prevBCell prevCCell : Cell) (r : ℕ) : ℕ → List (Cell × Cell)
  | 0 => []
  | m + 1 =>
    ((Col.advice 0, r), prevBCell) :: ((Col.advice 1, r), prevCCell) ::
      ex4_copies prevCCell (Col.advice 2, r) (r + 1) m

/-- The constraint system of example4's circuit at `k = 5`: the addition
gate, the copy constraints of the two `assign_row` regions, and the
instance bindings of `assign_advice_from_instance` (rows 0 and 1) and
`expose_public` (the final `c` cell at instance row 2). -/
def ex4Cs : ConstraintSys Fp :=
  { gates := [additionGate]
    lookups := []
    copies := ex4_copies (Col.advice 1, 0) (Col.advice 2, 0) 1 2
    instBindings := [((Col.advice 0, 0), 0), ((Col.advice 1, 0), 1), ((Col.advice 2, 2), 2)] }

/-- The witness grid of example4's circuit at `k = 5`: advice columns from
`ex4_witness` with `in0`/`in1` read from the public inputs, the selector
enabled only at the first region's row (only `assign_first_row` enables
it), and the instance column holding the public inputs; `main` runs the
checker at `k = 4`, so the grid has 16 rows. -/
def ex4Grid (instVals : List Fp) : Grid Fp :=
  { n := 16
    advice := fun c r =>
      let rows := ex4_witness (instVals.getD 0 0) (instVals.getD 1 0) 5
      match c with
      | 0 => (rows.getD r (0, 0, 0)).1
      | 1 => (rows.getD r (0, 0, 0)).2.1
      | 2 => (rows.getD r (0, 0, 0)).2.2
      | _ => 0
    fixedv := fun _ _ => 0
    instv := fun _ r => instVals.getD r 0
    sel := fun s r => decide (s = 0 ∧ r = 0) }

/-- Claim C2: with public inputs `[1, 1, 5]` the three-region copy-chained
recurrence circuit (terms 1, 1, 2, 3, 5, final term exposed at instance
row 2) verifies with no failures; re-running with the exposed instance
entry incremented to 6 yields exactly one instance-mismatch violation and
no gate (or other) violations. -/
theorem copy_chain_scenario :
    verify ex4Cs (ex4Grid [1, 1, 5]) [1, 1, 5] = [] ∧
    verify ex4Cs (ex4Grid [1, 1, 6]) [1, 1, 6] =
      [Failure.instV (Col.advice 2, 2) 2] := by
  constructor
  · decide
  · decide

/-! ## The XOR lookup table (halo2-tutorial1/src/fibodynamic.rs)

`FibonacciChip::configure` allocates advice columns a = 0, b = 1, c = 2,
the simple selector `s_add` (index 0), the complex selector `s_xor`
(index 1) and three lookup table columns, and declares the lookup
`(s * lhs, s * rhs, s * out)` against them.  `load_table` fills the table
with the 1024 tuples `(lhs, rhs, lhs ^ rhs)` for `lhs, rhs` in `0..32`. -/

/-- The table loaded by `FibonacciChip::load_table`: all tuples
`(lhs, rhs, lhs ^ rhs)` for `lhs` and `rhs` in `0..32`, in row order. -/
def xor_table : List (List Fp) :=
  (List.range 32).flatMap (fun (lhs : ℕ) =>
    (List.range 32).map (fun (rhs : ℕ) =>
      [(lhs : Fp), (rhs : Fp), ((Nat.xor lhs rhs : ℕ) : Fp)]))

/-- The lookup argument declared by `FibonacciChip::configure`:
inputs `(s * lhs, s * rhs, s * out)` with `s = s_xor`, against the three
XOR table columns. -/
def xorLookup : LookupArg Fp :=
  { name := "lookup"
    sel := 1
    inputs :=
      [Expr.mul (Expr.selector 1) (Expr.query (Col.advice 0) 0),
       Expr.mul (Expr.selector 1) (Expr.query (Col.advice 1) 0),
       Expr.mul (Expr.selector 1) (Expr.query (Col.advice 2) 0)]
    table := xor_table }

/-- A constraint system holding just the XOR lookup argument. -/
def xorLookupCs : ConstraintSys Fp :=
  { gates := [], lookups := [xorLookup], copies := [], instBindings := [] }

/-- A grid with inputs `(1, 1)` and a chosen output cell value at the
single row where the lookup's selector is enabled. -/
def xorLookupGrid (out : Fp) : Grid Fp :=
  { n := 4
    advice := fun c r => ([[1], [1], [out]].getD c []).getD r 0
    fixedv := fun _ _ => 0
    instv := fun _ _ => 0
    sel := fun s r => decide (s = 1 ∧ r = 0) }

/-- Claim C4: at a row where a lookup's selector is enabled, the checker
reports no lookup failure for that row exactly when the evaluated input
tuple equals some loaded row's full tuple of table values (set
containment); in particular, for the loaded XOR table and inputs `(1, 1)`,
witnessing output 1 yields exactly the `not found in table` failure and
witnessing output 0 verifies with no failures. -/
theorem lookup_containment (g : Grid Fp) (L : LookupArg Fp) (r : ℕ)
    (h1 : r < g.n) (h2 : g.sel L.sel r = true) :
    (Failure.lookup L.name r ∉ lookupFailures g L ↔
      L.inputs.map (eval g r) ∈ L.table) ∧
    verify xorLookupCs (xorLookupGrid 1) [] = [Failure.lookup "lookup" 0] ∧
    verify xorLookupCs (xorLookupGrid 0) [] = [] := by
  refine ⟨⟨fun hnot => ?_, fun htab hmem => ?_⟩, by decide, by decide⟩
  · by_contra htab
    apply hnot
    rw [lookupFailures, List.mem_filterMap]
    refine ⟨r, List.mem_range.mpr h1, ?_⟩
    rw [if_pos h2, if_neg htab]
  · rw [lookupFailures, List.mem_filterMap] at hmem
    obtain ⟨r2, hr2, heq⟩ := hmem
    by_cases hs : g.sel L.sel r2
    · rw [if_pos hs] at heq
      by_cases ht2 : L.inputs.map (eval g r2) ∈ L.table
      · rw [if_pos ht2] at heq
        exact Option.noConfusion heq
      · rw [if_neg ht2] at heq
        have hr : r2 = r := ((Failure.lookup.injEq _ _ _ _).mp (Option.some.inj heq)).2
        subst hr
        exact ht2 htab
    · rw [if_neg hs] at heq
      exact Option.noConfusion heq

/-- Witness for C4 at the concrete XOR-lookup grid with output 0, selector
enabled at row 0. -/
theorem lookup_containment_witness :
    (0 < (xorLookupGrid 0).n ∧ (xorLookupGrid 0).sel xorLookup.sel 0 = true) ∧
    ((Failure.lookup xorLookup.name 0 ∉ lookupFailures (xorLookupGrid 0) xorLookup ↔
        xorLookup.inputs.map (eval (xorLookupGrid 0) 0) ∈ xorLookup.table) ∧
      verify xorLookupCs (xorLookupGrid 1) [] = [Failure.lookup "lookup" 0] ∧
      verify xorLookupCs (xorLookupGrid 0) [] = []) :=
  ⟨⟨by decide, by decide⟩, lookup_containment (xorLookupGrid 0) xorLookup 0 (by decide) (by decide)⟩

/-! ## The alternating add/xor recurrence (halo2-tutorial1/src/fibodynamic.rs)

`FibonacciChip::assign` fills one region: row 0 holds `a = instance[0]`,
`b = instance[1]`, `c = a + b` with `s_add` enabled; each later row `row`
in `1..nrows` copies the previous `b`/`c` forward and computes the new `c`
as `b + c` when `row` is even (`s_add`) and as the 64-bit xor of the
values' low limbs when `row` is odd (`s_xor`).  `synthesize` calls it with
`nrows = 8` and exposes the returned cell at instance row 2; `main` passes
public inputs `[1, 1, 21]`. -/

/-- The xor branch of `FibonacciChip::assign`:
`F::from(a_val ^ b_val)` where each operand is the value's low 128 bits
(`get_lower_128`) truncated to a `u64`. -/
def xor64 (a b : Fp) : Fp :=
  let a_val : ℕ := a.val % 2 ^ 128 % 2 ^ 64
  let b_val : ℕ := b.val % 2 ^ 128 % 2 ^ 64
  ((Nat.xor a_val b_val : ℕ) : Fp)

/-- The value of the cell returned by `FibonacciChip::assign`: starting
from `b = in1`, `c = in0 + in1`, each row `row` in `1..nrows` advances
`(b, c)` to `(c, b + c)` when `row` is even and to `(c, xor64 b c)` when
`row` is odd, returning the final `c`. -/
def fibo_assign (in0 in1 : Fp) (nrows : ℕ) : Fp :=
  ((List.range' 1 (nrows - 1)).foldl (fun (p : Fp × Fp) row =>
      if row % 2 = 0 then (p.2, p.1 + p.2) else (p.2, xor64 p.1 p.2))
    (in1, in0 + in1)).2

/-- The sequence as the claim states it: `t 0 = 1`, `t 1 = 1`,
`t 2 = t 0 + t 1`, and for each row `r` from 1 on, `t (r + 2)` is the
64-bit xor of `t r` and `t (r + 1)` when `r` is odd and their sum when `r`
is even. -/
def claimSeq : ℕ → Fp
  | 0 => 1
  | 1 => 1
  | 2 => claimSeq 0 + claimSeq 1
  | r + 3 =>
    if (r + 1) % 2 = 1 then xor64 (claimSeq (r + 1)) (claimSeq (r + 2))
    else claimSeq (r + 1) + claimSeq (r + 2)

/-- Claim C10: with public inputs 1 and 1 and `nrows = 8`, the cell
returned by `FibonacciChip::assign` holds the field element 21, the final
term of the alternating add/xor sequence, matching the third public input
(`main`'s `out = Fp::from(21)`). -/
theorem fibodynamic_assign_value :
    fibo_assign 1 1 8 = 21 ∧ fibo_assign 1 1 8 = claimSeq 9 ∧
    [(1 : Fp), 1, 21].getD 2 0 = fibo_assign 1 1 8 := by
  refine ⟨by decide, ?_, by decide⟩
  have h9 : claimSeq 9 = 21 := by
    simp [claimSeq, xor64]
    decide
  rw [h9]
  decide

/-! ## Range checks and the Lt chip (halo2-tutorial1/src/sort.rs)

`range_check(word, range)` folds `word` with the factors `(i - word)` for
`i` in `1..range`; `bool_check(value) = range_check(value, 2)`.
`expr_from_bytes` recomposes a little-endian byte decomposition with
multiplier 256.  `LtChip::configure` (with `N_BYTES = 8`) creates the gate
`[q * check_a, q * check_b]` where
`check_a = lhs - rhs - expr_from_bytes(diff_bytes) + lt * range`,
`check_b = bool_check(lt)` and `range = 2^(8 * N_BYTES) = 2^64`;
`LtChip::assign` witnesses `lt = (lhs < rhs)` and the first 8 canonical
little-endian bytes of `lhs - rhs + (if lt then range else 0)`. -/

/-- `range_check`: `(1..range).fold(word, |acc, i| acc * (Constant(i) - word))`. -/
def range_check {F : Type} [CommRing F] (word : Expr F) (range : ℕ) : Expr F :=
  (List.range' 1 (range - 1)).foldl
    (fun acc (i : ℕ) => Expr.mul acc (Expr.add (Expr.const (i : F)) (Expr.neg word))) word

/-- `bool_check`: restrict an expression to be a boolean. -/
def bool_check {F : Type} [CommRing F] (value : Expr F) : Expr F :=
  range_check value 2

/-- Helper loop of `expr_from_bytes`: `value = value + byte * multiplier;
multiplier *= 256`. -/
def expr_from_bytes_go {F : Type} [CommRing F] (value : Expr F) (multiplier : F) :
    List (Expr F) → Expr F
  | [] => value
  | byte :: rest =>
    expr_from_bytes_go (Expr.add value (Expr.mul byte (Expr.const multiplier)))
      (multiplier * 256) rest

/-- `expr_from_bytes`: given a bytes-representation of an expression,
computes the single recomposed expression. -/
def expr_from_bytes {F : Type} [CommRing F] (bytes : List (Expr F)) : Expr F :=
  expr_from_bytes_go (Expr.const 0) 1 bytes

/-- Little-endian base-256 value of a list of field elements. -/
def bytesVal {F : Type} [CommRing F] : List F → F
  | [] => 0
  | b :: rest => b + 256 * bytesVal rest

/-- Little-endian base-256 value of a list of naturals. -/
def bytesValN : List ℕ → ℕ
  | [] => 0
  | b :: rest => b + 256 * bytesValN rest

theorem eval_expr_from_bytes_go {F : Type} [CommRing F] (g : Grid F) (r : ℕ)
    (es : List (Expr F)) (acc : Expr F) (mult : F) :
    eval g r (expr_from_bytes_go acc mult es) =
      eval g r acc + mult * bytesVal (es.map (eval g r)) := by
  induction es generalizing acc mult with
  | nil => simp [expr_from_bytes_go, bytesVal]
  | cons b t ih =>
    simp only [expr_from_bytes_go, List.map_cons, bytesVal, ih, eval]
    ring

theorem eval_expr_from_bytes {F : Type} [CommRing F] (g : Grid F) (r : ℕ)
    (es : List (Expr F)) :
    eval g r (expr_from_bytes es) = bytesVal (es.map (eval g r)) := by
  rw [expr_from_bytes, eval_expr_from_bytes_go]
  simp [eval]

theorem bytesVal_natCast {F : Type} [CommRing F] (l : List ℕ) :
    bytesVal (l.map (fun b : ℕ => (b : F))) = ((bytesValN l : ℕ) : F) := by
  induction l with
  | nil => simp [bytesVal, bytesValN]
  | cons b t ih =>
    simp only [List.map_cons, bytesVal, bytesValN, ih]
    push_cast
    ring

/-- Recomposing the first `N` little-endian base-256 digits of `v` yields
`v % 256 ^ N`. -/
theorem bytesValN_digits (N : ℕ) :
    ∀ v : ℕ, bytesValN ((List.range N).map (fun i => v / 256 ^ i % 256)) = v % 256 ^ N := by
  induction N with
  | zero => intro v; simp [bytesValN, Nat.mod_one]
  | succ N ih =>
    intro v
    rw [List.range_succ_eq_map, List.map_cons, List.map_map]
    have hmap : (List.range N).map ((fun i => v / 256 ^ i % 256) ∘ Nat.succ) =
        (List.range N).map (fun i => (v / 256) / 256 ^ i % 256) := by
      apply List.map_congr_left
      intro i _
      simp only [Function.comp]
      rw [pow_succ', Nat.div_div_eq_div_mul]
    rw [bytesValN, hmap, ih (v / 256)]
    have : v / 256 ^ 0 % 256 = v % 256 := by norm_num
    rw [this, pow_succ']
    exact Nat.mod_mul.symm

/-- The first `N` bytes of the canonical little-endian byte representation
(`to_repr`) of a bn254 scalar. -/
def to_repr_bytes (x : Fp) (N : ℕ) : List ℕ :=
  (List.range N).map (fun i => x.val / 256 ^ i % 256)

/-- `LtConfig::range` for `N_BYTES = 8`: `F::from(2).pow(8 * N_BYTES) = 2^64`. -/
def lt_range : Fp := 2 ^ 64

/-- `LtChip::assign` for `N_BYTES = 8`: witnesses `lt = (lhs < rhs)` (as
the canonical-representative comparison the field's `Ord` performs) and
the first 8 bytes of `diff = lhs - rhs + (if lt then range else 0)`. -/
def lt_assign (lhs rhs : Fp) : Fp × List ℕ :=
  let lt : Bool := decide (lhs.val < rhs.val)
  let diff : Fp := (lhs - rhs) + (if lt then lt_range else 0)
  ((if lt then 1 else 0), to_repr_bytes diff 8)

/-- An empty grid (recomposition of constant expressions reads no cells). -/
def zeroGrid : Grid Fp :=
  { n := 0
    advice := fun _ _ => 0
    fixedv := fun _ _ => 0
    instv := fun _ _ => 0
    sel := fun _ _ => false }

/-- Round-trip: `expr_from_bytes` applied to the first 8 canonical bytes
of a field element below `2^64` recomposes that element. -/
theorem recompose_to_repr (x : Fp) (hx : x.val < 2 ^ 64) (g : Grid Fp) (r : ℕ) :
    eval g r (expr_from_bytes ((to_repr_bytes x 8).map (fun b : ℕ => Expr.const (b : Fp)))) = x := by
  rw [eval_expr_from_bytes, List.map_map]
  have hcomp : (to_repr_bytes x 8).map (eval g r ∘ fun b : ℕ => Expr.const (b : Fp)) =
      (to_repr_bytes x 8).map (fun b : ℕ => (b : Fp)) := by
    apply List.map_congr_left
    intro b _
    rfl
  rw [hcomp, bytesVal_natCast, to_repr_bytes, bytesValN_digits]
  have h8 : (256 : ℕ) ^ 8 = 2 ^ 64 := by norm_num
  rw [h8, Nat.mod_eq_of_lt hx]
  exact ZMod.natCast_rightInverse x

theorem lt_assign_diff_val_lt (lhs rhs : Fp) (hl : lhs.val < 2 ^ 64)
    (hr : rhs.val < 2 ^ 64) :
    ((lhs - rhs) + (if decide (lhs.val < rhs.val) then lt_range else 0)).val < 2 ^ 64 := by
  have hv : ∀ y : Fp, ((y.val : ℕ) : Fp) = y := fun y => ZMod.natCast_rightInverse y
  by_cases hlt : lhs.val < rhs.val
  · rw [if_pos (by simpa using hlt)]
    have hcast : lhs - rhs + lt_range = ((lhs.val + 2 ^ 64 - rhs.val : ℕ) : Fp) := by
      have hle : rhs.val ≤ lhs.val + 2 ^ 64 := by omega
      rw [Nat.cast_sub hle, Nat.cast_add, hv lhs, hv rhs]
      push_cast
      rw [lt_range]
      ring
    rw [hcast, ZMod.val_natCast]
    calc (lhs.val + 2 ^ 64 - rhs.val) % bn254r ≤ lhs.val + 2 ^ 64 - rhs.val :=
          Nat.mod_le _ _
      _ < 2 ^ 64 := by omega
  · rw [if_neg (by simpa using hlt), add_zero]
    have hle : rhs.val ≤ lhs.val := Nat.le_of_not_lt hlt
    have hcast : lhs - rhs = ((lhs.val - rhs.val : ℕ) : Fp) := by
      rw [Nat.cast_sub hle, hv lhs, hv rhs]
    rw [hcast, ZMod.val_natCast]
    calc (lhs.val - rhs.val) % bn254r ≤ lhs.val - rhs.val := Nat.mod_le _ _
      _ < 2 ^ 64 := by omega

/-- Claim C5: for field elements with canonical values below `2^64`, the
witness written by `LtChip::assign` satisfies the lt gate's first
constraint `lhs - rhs - expr_from_bytes(diff_bytes) + lt * range = 0`;
and `expr_from_bytes` recomposes the first 8 canonical little-endian bytes
of any field element below `2^64` back to that element. -/
theorem lt_assign_satisfies_gate (lhs rhs x : Fp)
    (hl : lhs.val < 2 ^ 64) (hr : rhs.val < 2 ^ 64) (hx : x.val < 2 ^ 64) :
    lhs - rhs -
        eval zeroGrid 0 (expr_from_bytes
          (((lt_assign lhs rhs).2).map (fun b : ℕ => Expr.const (b : Fp)))) +
      (lt_assign lhs rhs).1 * lt_range = 0 ∧
    eval zeroGrid 0 (expr_from_bytes
      ((to_repr_bytes x 8).map (fun b : ℕ => Expr.const (b : Fp)))) = x := by
  refine ⟨?_, recompose_to_repr x hx zeroGrid 0⟩
  have h2 : (lt_assign lhs rhs).2 =
      to_repr_bytes ((lhs - rhs) + (if decide (lhs.val < rhs.val) then lt_range else 0)) 8 :=
    rfl
  have h1 : (lt_assign lhs rhs).1 = (if decide (lhs.val < rhs.val) then (1 : Fp) else 0) :=
    rfl
  rw [h2, h1, recompose_to_repr _ (lt_assign_diff_val_lt lhs rhs hl hr) zeroGrid 0]
  by_cases hlt : lhs.val < rhs.val
  · rw [if_pos (by simpa using hlt), if_pos (by simpa using hlt)]
    ring
  · rw [if_neg (by simpa using hlt), if_neg (by simpa using hlt)]
    ring

/-- Witness for C5 at lhs = 1, rhs = 2, x = 5. -/
theorem lt_assign_satisfies_gate_witness :
    ((1 : Fp).val < 2 ^ 64 ∧ (2 : Fp).val < 2 ^ 64 ∧ (5 : Fp).val < 2 ^ 64) ∧
    ((1 : Fp) - 2 -
        eval zeroGrid 0 (expr_from_bytes
          (((lt_assign 1 2).2).map (fun b : ℕ => Expr.const (b : Fp)))) +
      (lt_assign 1 2).1 * lt_range = 0 ∧
    eval zeroGrid 0 (expr_from_bytes
      ((to_repr_bytes 5 8).map (fun b : ℕ => Expr.const (b : Fp)))) = 5) :=
  ⟨⟨by decide, by decide, by decide⟩,
    lt_assign_satisfies_gate 1 2 5 (by decide) (by decide) (by decide)⟩

theorem eval_range_check_foldl {F : Type} [CommRing F] (g : Grid F) (r : ℕ)
    (w : Expr F) (L : List ℕ) (acc : Expr F) :
    eval g r (L.foldl
        (fun a (i : ℕ) => Expr.mul a (Expr.add (Expr.const (i : F)) (Expr.neg w))) acc) =
      eval g r acc * (L.map (fun i : ℕ => (i : F) - eval g r w)).prod := by
  induction L generalizing acc with
  | nil => simp
  | cons b t ih =>
    simp only [List.foldl_cons, List.map_cons, List.prod_cons, ih, eval]
    ring

/-- Claim C8: `bool_check(v) = range_check(v, 2)` vanishes exactly on 0 and
1; in general, for `range ≥ 1`, `range_check(word, range)` — the product
`word * (1 - word) * ... * (range - 1 - word)` — vanishes exactly when the
word equals one of the field elements `0, 1, ..., range - 1`. -/
theorem range_check_characterization {F : Type} [Field F] [DecidableEq F]
    (v : F) (n : ℕ) (hn : 1 ≤ n) (g : Grid F) (r : ℕ) :
    (eval g r (range_check (Expr.const v) n) = 0 ↔ ∃ i, i < n ∧ v = (i : F)) ∧
    (eval g r (bool_check (Expr.const v)) = 0 ↔ v = 0 ∨ v = 1) := by
  have hgen : ∀ m : ℕ, 1 ≤ m →
      (eval g r (range_check (Expr.const v) m) = 0 ↔ ∃ i, i < m ∧ v = (i : F)) := by
    intro m hm
    rw [range_check, eval_range_check_foldl]
    have heval : eval g r (Expr.const v) = v := rfl
    rw [heval, mul_eq_zero, List.prod_eq_zero_iff]
    constructor
    · rintro (hv | hmem)
      · exact ⟨0, hm, by simpa using hv⟩
      · rw [List.mem_map] at hmem
        obtain ⟨i, hiL, hzero⟩ := hmem
        rw [List.mem_range'] at hiL
        obtain ⟨j, hj, hij⟩ := hiL
        refine ⟨i, by omega, ?_⟩
        linear_combination -hzero
    · rintro ⟨i, hi, hv⟩
      by_cases h0 : i = 0
      · left
        subst h0
        simpa using hv
      · right
        rw [List.mem_map]
        refine ⟨i, ?_, ?_⟩
        · rw [List.mem_range']
          exact ⟨i - 1, by omega, by omega⟩
        · rw [hv]
          ring
  refine ⟨hgen n hn, ?_⟩
  rw [bool_check, hgen 2 (by norm_num)]
  constructor
  · rintro ⟨i, hi, hv⟩
    interval_cases i
    · left; simpa using hv
    · right; simpa using hv
  · rintro (h | h)
    · exact ⟨0, by norm_num, by simpa using h⟩
    · exact ⟨1, by norm_num, by simpa using h⟩

instance : Fact (Nat.Prime 5) := ⟨by norm_num⟩

/-- A one-row grid over `ZMod 5` for the range-check witness. -/
def witnessGrid5 : Grid (ZMod 5) :=
  { n := 1
    advice := fun _ _ => 0
    fixedv := fun _ _ => 0
    instv := fun _ _ => 0
    sel := fun _ _ => false }

/-- Witness for C8 over the field `ZMod 5` at v = 2 and range = 3. -/
theorem range_check_characterization_witness :
    (1 ≤ 3) ∧
    ((eval witnessGrid5 0 (range_check (Expr.const (2 : ZMod 5)) 3) = 0 ↔
        ∃ i : ℕ, i < 3 ∧ (2 : ZMod 5) = (i : ZMod 5)) ∧
      (eval witnessGrid5 0 (bool_check (Expr.const (2 : ZMod 5))) = 0 ↔
        (2 : ZMod 5) = 0 ∨ (2 : ZMod 5) = 1)) :=
  ⟨by norm_num, range_check_characterization 2 3 (by norm_num) witnessGrid5 0⟩

/-! ## Bubble sort (halo2-tutorial1/src/sort.rs)

`bubble_sort` runs `length` sweeps over the vector; each sweep walks `j`
from the left, comparing `target[j]` with `target[j + 1]` and swapping
when `target[j] > target[j + 1]`.  `bubble_pass_go cur l` is one sweep
with `cur` the element currently held at position `j`; it emits the
smaller of `cur` and the next element and carries the larger rightward —
exactly the source's compare-and-swap walk. -/

/-- One compare-and-swap step of `bubble_sort`'s inner loop, carrying the
currently held element. -/
def bubble_pass_go (cur : ℕ) : List ℕ → List ℕ
  | [] => [cur]
  | b :: rest => if b < cur then b :: bubble_pass_go cur rest else cur :: bubble_pass_go b rest

/-- One full sweep of `bubble_sort`'s inner loop (`j` in `0..length - 1`). -/
def bubble_pass : List ℕ → List ℕ
  | [] => []
  | a :: l => bubble_pass_go a l

/-- `bubble_sort`: `length` sweeps of the inner loop. -/
def bubble_sort (numbers : List ℕ) : List ℕ :=
  bubble_pass^[numbers.length] numbers

theorem bubble_pass_go_perm (l : List ℕ) :
    ∀ cur, (bubble_pass_go cur l).Perm (cur :: l) := by
  induction l with
  | nil => intro cur; exact List.Perm.refl _
  | cons b t ih =>
    intro cur
    rw [bubble_pass_go]
    by_cases h : b < cur
    · rw [if_pos h]
      exact ((ih cur).cons b).trans (List.Perm.swap cur b t)
    · rw [if_neg h]
      exact (ih b).cons cur

theorem bubble_pass_perm (l : List ℕ) : (bubble_pass l).Perm l := by
  cases l with
  | nil => exact List.Perm.refl _
  | cons a t => exact bubble_pass_go_perm t a

theorem bubble_pass_go_ub (l : List ℕ) :
    ∀ cur, ∃ l2 m, bubble_pass_go cur l = l2 ++ [m] ∧ ∀ x ∈ cur :: l, x ≤ m := by
  induction l with
  | nil => intro cur; exact ⟨[], cur, rfl, by simp⟩
  | cons b t ih =>
    intro cur
    rw [bubble_pass_go]
    by_cases h : b < cur
    · obtain ⟨l2, m, heq, hub⟩ := ih cur
      refine ⟨b :: l2, m, by rw [if_pos h, heq, List.cons_append], ?_⟩
      intro x hx
      rcases List.mem_cons.mp hx with rfl | hx2
      · exact hub x (List.mem_cons_self _ _)
      · rcases List.mem_cons.mp hx2 with rfl | hx3
        · exact Nat.le_of_lt (Nat.lt_of_lt_of_le h (hub cur (List.mem_cons_self _ _)))
        · exact hub x (List.mem_cons_of_mem _ hx3)
    · obtain ⟨l2, m, heq, hub⟩ := ih b
      refine ⟨cur :: l2, m, by rw [if_neg h, heq, List.cons_append], ?_⟩
      intro x hx
      rcases List.mem_cons.mp hx with rfl | hx2
      · exact Nat.le_trans (Nat.le_of_not_lt h) (hub b (List.mem_cons_self _ _))
      · exact hub x hx2

theorem bubble_pass_go_append_ub (m : ℕ) :
    ∀ (l : List ℕ) (cur : ℕ), (∀ x ∈ cur :: l, x ≤ m) →
      bubble_pass_go cur (l ++ [m]) = bubble_pass_go cur l ++ [m] := by
  intro l
  induction l with
  | nil =>
    intro cur hub
    simp only [List.nil_append, bubble_pass_go]
    rw [if_neg (Nat.not_lt.mpr (hub cur (List.mem_cons_self _ _)))]
    rfl
  | cons b t ih =>
    intro cur hub
    rw [List.cons_append, bubble_pass_go, bubble_pass_go]
    by_cases h : b < cur
    · have hub2 : ∀ x ∈ cur :: t, x ≤ m := by
        intro x hx
        rcases List.mem_cons.mp hx with rfl | hx2
        · exact hub x (List.mem_cons_self _ _)
        · exact hub x (List.mem_cons_of_mem _ (List.mem_cons_of_mem _ hx2))
      rw [if_pos h, if_pos h, ih cur hub2, List.cons_append]
    · have hub2 : ∀ x ∈ b :: t, x ≤ m :=
        fun x hx => hub x (List.mem_cons_of_mem _ hx)
      rw [if_neg h, if_neg h, ih b hub2, List.cons_append]

theorem bubble_pass_append_ub (l : List ℕ) (m : ℕ) (hub : ∀ x ∈ l, x ≤ m) :
    bubble_pass (l ++ [m]) = bubble_pass l ++ [m] := by
  cases l with
  | nil => rfl
  | cons a t =>
    rw [List.cons_append, bubble_pass, bubble_pass]
    exact bubble_pass_go_append_ub m t a hub

theorem bubble_pass_iterate_nil (k : ℕ) : bubble_pass^[k] [] = [] :=
  Function.iterate_fixed rfl k

theorem bubble_pass_iterate_perm (k : ℕ) : ∀ l : List ℕ, (bubble_pass^[k] l).Perm l := by
  induction k with
  | zero => intro l; exact List.Perm.refl l
  | succ k ih =>
    intro l
    rw [Function.iterate_succ_apply]
    exact (ih (bubble_pass l)).trans (bubble_pass_perm l)

theorem bubble_pass_iterate_append (k : ℕ) :
    ∀ (l : List ℕ) (m : ℕ), (∀ x ∈ l, x ≤ m) →
      bubble_pass^[k] (l ++ [m]) = bubble_pass^[k] l ++ [m] := by
  induction k with
  | zero => intro l m _; rfl
  | succ k ih =>
    intro l m hub
    rw [Function.iterate_succ_apply, Function.iterate_succ_apply,
      bubble_pass_append_ub l m hub]
    exact ih (bubble_pass l) m (fun x hx => hub x ((bubble_pass_perm l).mem_iff.mp hx))

theorem bubble_pass_iterate_sorted (k : ℕ) :
    ∀ l : List ℕ, l.length ≤ k + 1 → List.Sorted (· ≤ ·) (bubble_pass^[k] l) := by
  induction k with
  | zero =>
    intro l hl
    cases l with
    | nil => simp
    | cons a t =>
      cases t with
      | nil => simp
      | cons b t2 => simp at hl
  | succ k ih =>
    intro l hl
    cases l with
    | nil => rw [bubble_pass_iterate_nil]; exact List.sorted_nil
    | cons a t =>
      obtain ⟨l2, m, heq, hub⟩ := bubble_pass_go_ub t a
      have heq2 : bubble_pass (a :: t) = l2 ++ [m] := by rw [bubble_pass]; exact heq
      have hperm : (l2 ++ [m]).Perm (a :: t) := heq2 ▸ bubble_pass_perm (a :: t)
      have hub2 : ∀ x ∈ l2, x ≤ m :=
        fun x hx => hub x (hperm.mem_iff.mp (List.mem_append_left _ hx))
      have hlen : l2.length ≤ k + 1 := by
        have h1 : (l2 ++ [m]).length = (a :: t).length := hperm.length_eq
        simp only [List.length_append, List.length_singleton, List.length_cons] at h1
        simp only [List.length_cons] at hl
        omega
      rw [Function.iterate_succ_apply, heq2, bubble_pass_iterate_append k l2 m hub2]
      refine List.pairwise_append.mpr ⟨ih l2 hlen, by simp, ?_⟩
      intro x hx y hy
      rw [List.mem_singleton] at hy
      subst hy
      exact hub2 x ((bubble_pass_iterate_perm k l2).mem_iff.mp hx)

/-! ## Scenario C: the comparison chip over a sorted sequence (sort.rs)

`sort_test`'s circuit: a complex selector `q_enable` (index 0), advice
columns value = 0 and check = 1, then the Lt chip's columns lt = 2 and
diff = 3..10.  Gates: the Lt chip's `lt gate` with
`lhs = value@prev, rhs = value@cur`, and
`check is_lt between adjacent rows` with `q_enable * (is_lt - check)`.
`synthesize` bubble-sorts the input values, writes the sorted sequence in
the value column, the flags in the check column at rows 1..4 with the
selector enabled, and runs `LtChip::assign` on each adjacent pair. -/

/-- The diff-byte queries of the lt gate (`N_BYTES = 8`). -/
def lt_diff_exprs : List (Expr Fp) :=
  (List.range 8).map (fun i => Expr.query (Col.advice (3 + i)) 0)

/-- `check_a` of `LtChip::configure`:
`lhs - rhs - expr_from_bytes(diff_bytes) + lt * range`. -/
def lt_check_a : Expr Fp :=
  Expr.add
    (Expr.add
      (Expr.add (Expr.query (Col.advice 0) (-1)) (Expr.neg (Expr.query (Col.advice 0) 0)))
      (Expr.neg (expr_from_bytes lt_diff_exprs)))
    (Expr.mul (Expr.query (Col.advice 2) 0) (Expr.const lt_range))

/-- The `lt gate` of `LtChip::configure`: `[q * check_a, q * check_b]`
with `check_b = bool_check(lt)`. -/
def lt_gate : Gate Fp :=
  { name := "lt gate"
    polys := [Expr.mul (Expr.selector 0) lt_check_a,
      Expr.mul (Expr.selector 0) (bool_check (Expr.query (Col.advice 2) 0))] }

/-- The consistency gate of `sort_test`'s circuit:
`q_enable * (is_lt - check)`. -/
def islt_gate : Gate Fp :=
  { name := "check is_lt between adjacent rows"
    polys := [Expr.mul (Expr.selector 0)
      (Expr.add (Expr.query (Col.advice 2) 0) (Expr.neg (Expr.query (Col.advice 1) 0)))] }

/-- The constraint system of `sort_test`'s circuit. -/
def sortCs : ConstraintSys Fp :=
  { gates := [lt_gate, islt_gate], lookups := [], copies := [], instBindings := [] }

/-- The input values of `sort_test`: `vec![9, 4, 6, 2, 1]`. -/
def sort_values_input : List ℕ := [9, 4, 6, 2, 1]

/-- The sorted field-element sequence written into the value column. -/
def sorted_values : List Fp :=
  (bubble_sort sort_values_input).map (fun v : ℕ => (v : Fp))

/-- The adjacency flags of `sort_test`: `vec![true, true, true, true]`. -/
def sort_checks : List Bool := [true, true, true, true]

/-- The flags with the flag at position `i` inverted. -/
def flip_check (i : ℕ) : List Bool :=
  (List.range 4).map (fun j => !(decide (j = i)))

/-- The Lt chip witnesses of the four adjacent pairs. -/
def sort_lt_pairs : List (Fp × List ℕ) :=
  (List.range 4).map (fun i =>
    lt_assign (sorted_values.getD i 0) (sorted_values.getD (i + 1) 0))

/-- The witness grid of `sort_test`'s circuit (`k = 5`, so 32 rows): the
sorted values in the value column, the given flags in the check column at
rows 1..4 with the selector enabled there, and `LtChip::assign`'s `lt` and
diff-byte witnesses at those rows. -/
def sortGrid (checks : List Bool) : Grid Fp :=
  { n := 32
    advice := fun c r =>
      if c = 0 then sorted_values.getD r 0
      else if c = 1 then (if r = 0 then 0 else if checks.getD (r - 1) false then 1 else 0)
      else if c = 2 then (if r = 0 then 0 else (sort_lt_pairs.getD (r - 1) (0, [])).1)
      else if c ≤ 10 then
        (if r = 0 then 0 else (((sort_lt_pairs.getD (r - 1) (0, [])).2.getD (c - 3) 0 : ℕ) : Fp))
      else 0
    fixedv := fun _ _ => 0
    instv := fun _ _ => 0
    sel := fun s r => decide (s = 0 ∧ 1 ≤ r ∧ r ≤ 4) }

/-- Claim C3: sorting `[9, 4, 6, 2, 1]` yields `[1, 2, 4, 6, 9]`; the
correctly sorted, correctly flagged witness verifies with no failures;
inverting any adjacency flag produces a violation of the lt-consistency
gate at that flag's row; and `bubble_sort` returns, for every input
vector, a non-decreasing permutation of its input. -/
theorem sort_scenario (i : ℕ) (hi : i < 4) (l : List ℕ) :
    bubble_sort [9, 4, 6, 2, 1] = [1, 2, 4, 6, 9] ∧
    verify sortCs (sortGrid sort_checks) [] = [] ∧
    Failure.gate "check is_lt between adjacent rows" (i + 1) 0 ∈
      verify sortCs (sortGrid (flip_check i)) [] ∧
    List.Sorted (· ≤ ·) (bubble_sort l) ∧ (bubble_sort l).Perm l := by
  refine ⟨by decide, by decide, ?_, ?_, ?_⟩
  · interval_cases i <;> decide
  · exact bubble_pass_iterate_sorted l.length l (Nat.le_succ _)
  · exact bubble_pass_iterate_perm l.length l

/-- Witness for C3 at flag position 0 and input list `[3, 1, 2]`. -/
theorem sort_scenario_witness :
    (0 < 4) ∧
    (bubble_sort [9, 4, 6, 2, 1] = [1, 2, 4, 6, 9] ∧
      verify sortCs (sortGrid sort_checks) [] = [] ∧
      Failure.gate "check is_lt between adjacent rows" (0 + 1) 0 ∈
        verify sortCs (sortGrid (flip_check 0)) [] ∧
      List.Sorted (· ≤ ·) (bubble_sort [3, 1, 2]) ∧ (bubble_sort [3, 1, 2]).Perm [3, 1, 2]) :=
  ⟨by decide, sort_scenario 0 (by decide) [3, 1, 2]⟩

/-! ## The winterfell example (testwinterfall/src/main.rs)

The field is the 128-bit STARK field `f128` with modulus
`2^128 - 45 * 2^40 + 1`.  `do_work(start, n)` applies
`result = result^3 + 42` once per iteration of `1..n`;
`build_do_work_trace(start, n)` fills a one-column trace whose first state
is `start` and whose update closure is the same cubing step;
`WorkAir::evaluate_transition` computes the residual
`next - (current^3 + 42)`. -/

/-- Modulus of the winterfell `f128` base field: `2^128 - 45 * 2^40 + 1`. -/
def f128p : ℕ := 340282366920938463463374557953744961537

/-- The winterfell example's field. -/
abbrev F128 : Type := ZMod f128p

/-- The loop of `do_work`: `result = result.exp(3) + 42`, once per
iteration. -/
def work_loop (result : F128) : ℕ → F128
  | 0 => result
  | k + 1 => work_loop result k ^ 3 + 42

/-- `do_work(start, n)`: the loop body runs once per iteration of `1..n`,
that is `n - 1` times. -/
def do_work (start : F128) (n : ℕ) : F128 :=
  work_loop start (n - 1)

/-- `build_do_work_trace`: entry `i` of the one-column trace — the first
closure seeds `state[0] = start`, the second closure advances
`state[0] = state[0].exp(3) + 42` from each row to the next. -/
def build_do_work_trace (start : F128) : ℕ → F128
  | 0 => start
  | i + 1 => build_do_work_trace start i ^ 3 + 42

/-- `WorkAir::evaluate_transition`: the residual
`frame.next()[0] - (frame.current()[0].exp(3) + 42)`. -/
def evaluate_transition (current next : F128) : F128 :=
  next - (current ^ 3 + 42)

/-- Claim C9: the trace entry at step `i` is the `i`-fold application of
`x ↦ x^3 + 42` to `start`; the last entry of a length-`n` trace (`n ≥ 1`)
equals `do_work(start, n)`; and `evaluate_transition` yields a zero
residual on every consecutive pair of the trace. -/
theorem do_work_trace_equivalence (start : F128) (n i : ℕ) (_hn : 1 ≤ n) :
    build_do_work_trace start i = (fun x : F128 => x ^ 3 + 42)^[i] start ∧
    build_do_work_trace start (n - 1) = do_work start n ∧
    evaluate_transition (build_do_work_trace start i)
      (build_do_work_trace start (i + 1)) = 0 := by
  refine ⟨?_, ?_, ?_⟩
  · induction i with
    | zero => rfl
    | succ i ih => rw [build_do_work_trace, ih, Function.iterate_succ_apply']
  · have h : ∀ k, build_do_work_trace start k = work_loop start k := by
      intro k
      induction k with
      | zero => rfl
      | succ k ih => rw [build_do_work_trace, work_loop, ih]
    rw [do_work, h]
  · rw [evaluate_transition, build_do_work_trace, sub_self]

/-- Witness for C9 at `start = 3`, `n = 4096` (the values `main` uses) and
step 0. -/
theorem do_work_trace_equivalence_witness :
    (1 ≤ 4096) ∧
    (build_do_work_trace (3 : F128) 0 = (fun x : F128 => x ^ 3 + 42)^[0] (3 : F128) ∧
      build_do_work_trace (3 : F128) (4096 - 1) = do_work 3 4096 ∧
      evaluate_transition (build_do_work_trace (3 : F128) 0)
        (build_do_work_trace (3 : F128) (0 + 1)) = 0) :=
  ⟨by decide, do_work_trace_equivalence 3 4096 0 (by decide)⟩
